import Mathlib

/-
Verification of the FRCL analyzer pipeline (src/frcl_analyzer.py).

The script is a straight-line pandas pipeline: read CSV, self-join on
barcode, project and rename columns, coerce FRCL and DeltaEZ1 to numbers
(missing on failure), filter DeltaEZ1 to the closed range from -3 to 3,
group by exact DeltaEZ1 value (distinct-barcode count and mean FRCL),
fit an ordinary-least-squares line, and bin the filtered rows into twelve
half-open intervals of width one half.

The embedding below models the tabular data as lists of records, numeric
values as rationals, and the missing-value marker (NaN after coercion
with errors coerced) as Option.none.  Every pandas operation used by the
script is translated to an executable Lean function.
-/

namespace FRCL

/-- One raw CSV row, with the columns the script reads:
Barcode(AC), Finishing Machine, Production Date, FRCL, DeltaEZ1,
Barcode(BC).  All fields are strings as read from the CSV. -/
structure RawRow where
  finishingMachine : String
  productionDate : String
  barcodeAC : String
  frcl : String
  deltaEZ1 : String
  barcodeBC : String
deriving DecidableEq

/-- Numeric value of a decimal digit character. -/
def digitVal (c : Char) : Nat := c.toNat - 48

/-- Value of a list of decimal digit characters, most significant first. -/
def digitsVal (cs : List Char) : Nat := cs.foldl (fun n c => 10 * n + digitVal c) 0

/-- Model of the numeric parser behind pandas to_numeric with errors
coerced: an optional sign, an integer part and an optional fractional
part (at least one digit between them), and an optional exponent.
Returns none (the missing-value marker) on any malformed input; it is a
total function, so it can raise on no string. -/
def parseDecimal (s : String) : Option ℚ :=
  let cs := s.toList
  let sgnRest : ℚ × List Char :=
    match cs with
    | '-' :: t => (-1, t)
    | '+' :: t => (1, t)
    | _ => (1, cs)
  let sgn := sgnRest.1
  let cs1 := sgnRest.2
  let ip := cs1.takeWhile Char.isDigit
  let r1 := cs1.dropWhile Char.isDigit
  let fpRest : List Char × List Char :=
    match r1 with
    | '.' :: t => (t.takeWhile Char.isDigit, t.dropWhile Char.isDigit)
    | _ => ([], r1)
  let fp := fpRest.1
  let r2 := fpRest.2
  if ip.isEmpty && fp.isEmpty then none
  else
    let mant : ℚ := sgn * ((digitsVal ip : ℚ) + (digitsVal fp : ℚ) / (10 : ℚ) ^ fp.length)
    match r2 with
    | [] => some mant
    | e :: t =>
      if e = 'e' ∨ e = 'E' then
        let esRest : Bool × List Char :=
          match t with
          | '-' :: u => (false, u)
          | '+' :: u => (true, u)
          | _ => (true, t)
        let ed := esRest.2.takeWhile Char.isDigit
        let er := esRest.2.dropWhile Char.isDigit
        if ed.isEmpty ∨ ¬ er.isEmpty then none
        else if esRest.1 then some (mant * (10 : ℚ) ^ digitsVal ed)
        else some (mant / (10 : ℚ) ^ digitsVal ed)
      else none

/-- Python str.replace of the comma by the empty string: removes every
comma character (line 33 of the script). -/
def stripCommas (s : String) : String := String.mk (s.toList.filter (fun c => c ≠ ','))

/-- Coercion of the FRCL column: strip commas, then parse (line 33). -/
def toNumericFRCL (s : String) : Option ℚ := parseDecimal (stripCommas s)

/-- Coercion of the DeltaEZ1 column: parse directly (line 34). -/
def toNumericDE (s : String) : Option ℚ := parseDecimal s

/-- A row of selected_data after projection, rename and numeric coercion
(lines 23 to 34). -/
structure SelectedRow where
  finishingMachine : String
  productionDate : String
  barcode : String
  frcl : Option ℚ
  deltaEZ1 : Option ℚ
deriving DecidableEq

/-- The self-join of line 21: data.merge(data, left_on Barcode(AC),
right_on Barcode(BC)).  An inner equality join: one output pair for each
ordered pair of rows whose left AC barcode equals the right BC barcode. -/
def mergedData (t : List RawRow) : List (RawRow × RawRow) :=
  t.flatMap fun r1 =>
    (t.filter fun r2 => decide (r2.barcodeBC = r1.barcodeAC)).map fun r2 => (r1, r2)

/-- Projection and coercion of one joined pair: the AC-side machine,
date, barcode and FRCL together with the BC-side DeltaEZ1
(lines 23 to 34). -/
def projectPair (p : RawRow × RawRow) : SelectedRow :=
  { finishingMachine := p.1.finishingMachine
    productionDate := p.1.productionDate
    barcode := p.1.barcodeAC
    frcl := toNumericFRCL p.1.frcl
    deltaEZ1 := toNumericDE p.2.deltaEZ1 }

/-- selected_data of the script (lines 23 to 34). -/
def selectedData (t : List RawRow) : List SelectedRow := (mergedData t).map projectPair

/-- The filter predicate of line 36: DeltaEZ1 at least -3 and at most 3.
A missing value (NaN) fails both pandas comparisons, hence is dropped. -/
def inRange (o : Option ℚ) : Bool :=
  match o with
  | some q => decide (-3 ≤ q) && decide (q ≤ 3)
  | none => false

/-- The row filter of line 36 applied to a table of selected rows. -/
def filterRows (rows : List SelectedRow) : List SelectedRow :=
  rows.filter fun r => inRange r.deltaEZ1

/-- filtered_data of the script (line 36). -/
def filteredData (t : List RawRow) : List SelectedRow := filterRows (selectedData t)

/-- pandas nunique on a column of barcodes: the number of distinct
values. -/
def nunique (l : List String) : Nat := l.dedup.length

/-- pandas mean with NaN skipped: the mean of the present values, NaN
(none) when no value is present. -/
def meanOpt (l : List ℚ) : Option ℚ :=
  if l = [] then none else some (l.sum / (l.length : ℚ))

/-- One row of the grouped aggregate table (lines 38 to 44). -/
structure GroupRow where
  deltaEZ1 : ℚ
  numberOfTires : Nat
  averageFRCL : Option ℚ
deriving DecidableEq

/-- The group keys of a groupby on DeltaEZ1: the distinct present
values, in ascending order (pandas groupby sorts group keys). -/
def groupKeys (rows : List SelectedRow) : List ℚ :=
  List.insertionSort (· ≤ ·) (rows.filterMap fun r => r.deltaEZ1).dedup

/-- The rows of one DeltaEZ1 group. -/
def groupRows (rows : List SelectedRow) (k : ℚ) : List SelectedRow :=
  rows.filter fun r => decide (r.deltaEZ1 = some k)

/-- The groupby-aggregate of lines 38 to 44 on an already filtered
table: per distinct DeltaEZ1 value, the number of distinct barcodes and
the mean of the present FRCL values. -/
def groupedOf (rows : List SelectedRow) : List GroupRow :=
  (groupKeys rows).map fun k =>
    { deltaEZ1 := k
      numberOfTires := nunique ((groupRows rows k).map fun r => r.barcode)
      averageFRCL := meanOpt ((groupRows rows k).filterMap fun r => r.frcl) }

/-- grouped of the script (lines 38 to 44). -/
def groupedTable (t : List RawRow) : List GroupRow := groupedOf (filteredData t)

/-- The bin boundaries of line 51: numpy arange from -3.0 to 3.1 in
steps of 0.5, which yields the 13 exactly representable boundaries
-3.0, -2.5, ..., 3.0. -/
def deltaez1_bins : List ℚ := (List.range 13).map fun (i : ℕ) => -3 + (i : ℚ) / 2

/-- Lower boundary of bucket k. -/
def binLo (k : Nat) : ℚ := deltaez1_bins.getD k 0

/-- Upper boundary of bucket k. -/
def binHi (k : Nat) : ℚ := deltaez1_bins.getD (k + 1) 0

/-- Membership of a value in bucket k under pd.cut with right set to
false: left-inclusive, right-exclusive. -/
def bucketPred (k : Nat) (q : ℚ) : Bool := decide (binLo k ≤ q) && decide (q < binHi k)

/-- The bucket a present DeltaEZ1 value falls in (line 53): the interval
of the 12 that contains it, none when no interval does. -/
def bucketIdxQ (q : ℚ) : Option Nat :=
  (List.range 12).find? fun k => bucketPred k q

/-- The bucket of an optional DeltaEZ1 value: a missing value is binned
to NaN, that is to no bucket. -/
def bucketIdx (o : Option ℚ) : Option Nat :=
  match o with
  | some q => bucketIdxQ q
  | none => none

/-- One row of the Range Count table (lines 54 to 56), identified by its
bucket boundaries. -/
structure RangeRow where
  lo : ℚ
  hi : ℚ
  numberOfTires : Nat
deriving DecidableEq

/-- The rows of a table that fall in bucket k. -/
def bucketRows (rows : List SelectedRow) (k : Nat) : List SelectedRow :=
  rows.filter fun r => decide (bucketIdx r.deltaEZ1 = some k)

/-- range_count_df of the script on an already filtered table
(lines 53 to 56): groupby on the bin categorical keeps every one of the
12 categories, so every bucket appears, with the number of distinct
barcodes falling in it. -/
def rangeCountOf (rows : List SelectedRow) : List RangeRow :=
  (List.range 12).map fun k =>
    { lo := binLo k
      hi := binHi k
      numberOfTires := nunique ((bucketRows rows k).map fun r => r.barcode) }

/-- range_count_df of the script (lines 53 to 56). -/
def rangeCountTable (t : List RawRow) : List RangeRow := rangeCountOf (filteredData t)

/-- The count of filtered records whose DeltaEZ1 is strictly below 3. -/
def deLt3 (o : Option ℚ) : Bool :=
  match o with
  | some q => decide (q < 3)
  | none => false

/-- Number of rows of a table with DeltaEZ1 strictly below 3. -/
def countLt3 (rows : List SelectedRow) : Nat :=
  (rows.filter fun r => deLt3 r.deltaEZ1).length

/-- Model of the regression step of lines 46 to 49, over exact
rationals: sm.add_constant followed by sm.OLS fit and in-sample predict.
On an empty aggregate table np.ptp inside add_constant raises, which the
script's handler reports as an error; this is the error case.  On a
nonempty table add_constant skips the intercept when the predictor
column is a nonzero constant (its default has_constant behavior, which
always fires for a single row), the fit solves least squares through the
pseudoinverse, and a NaN in the response propagates into every
coefficient, hence every prediction. -/
def olsStep (groups : List GroupRow) : Except String (List (Option ℚ)) :=
  match groups with
  | [] => Except.error "zero-size array to reduction operation"
  | g0 :: _ =>
    let xs : List ℚ := groups.map fun g => (g.numberOfTires : ℚ)
    let x0 : ℚ := (g0.numberOfTires : ℚ)
    if (groups.map fun g => g.averageFRCL).any (fun o => o.isNone) then
      Except.ok (groups.map fun _ => (none : Option ℚ))
    else
      let ys : List ℚ := groups.filterMap fun g => g.averageFRCL
      if (xs.all fun x => decide (x = x0)) && decide (x0 ≠ 0) then
        let beta : ℚ := (List.zipWith (fun x y => x * y) xs ys).sum / (xs.map fun x => x * x).sum
        Except.ok (xs.map fun x => some (beta * x))
      else
        let n : ℚ := (xs.length : ℚ)
        let xbar : ℚ := xs.sum / n
        let ybar : ℚ := ys.sum / n
        let sxx : ℚ := (xs.map fun x => (x - xbar) * (x - xbar)).sum
        let sxy : ℚ := (List.zipWith (fun x y => (x - xbar) * (y - ybar)) xs ys).sum
        let b1 : ℚ := if sxx = 0 then 0 else sxy / sxx
        let b0 : ℚ := ybar - b1 * xbar
        Except.ok (xs.map fun x => some (b0 + b1 * x))

/-- The output tables of one successful run. -/
structure PipelineOutput where
  selected : List SelectedRow
  grouped : List GroupRow
  predictions : List (Option ℚ)
  rangeCount : List RangeRow
deriving DecidableEq

/-- One run of the pipeline body (lines 19 to 56): the whole body sits
in a single try block, so an exception anywhere yields the error case,
which the handler at lines 102 to 103 reports to the user. -/
def runPipeline (t : List RawRow) : Except String PipelineOutput :=
  match olsStep (groupedTable t) with
  | Except.error e => Except.error e
  | Except.ok preds =>
    Except.ok
      { selected := selectedData t
        grouped := groupedTable t
        predictions := preds
        rangeCount := rangeCountTable t }

/-- The regression predictions of a run, none when the run errors. -/
def pipelinePredictions (t : List RawRow) : Option (List (Option ℚ)) :=
  match runPipeline t with
  | Except.ok o => some o.predictions
  | Except.error _ => none

/-- Concrete input for C1: a single row joining with itself, producing
exactly one DeltaEZ1 group. -/
def oneGroupRow : RawRow :=
  { finishingMachine := "M1"
    productionDate := "2024-01-01"
    barcodeAC := "B1"
    frcl := "5"
    deltaEZ1 := "0"
    barcodeBC := "B1" }

/-- Concrete input for C2, first row: AC barcode 1, BC barcode 1. -/
def dupRowA : RawRow :=
  { finishingMachine := "M1"
    productionDate := "2024-01-01"
    barcodeAC := "1"
    frcl := "1"
    deltaEZ1 := "0"
    barcodeBC := "1" }

/-- Concrete input for C2, second row: AC barcode 2, BC barcode 1, so
row A joins against both rows and its barcode appears twice in the same
bucket. -/
def dupRowB : RawRow :=
  { finishingMachine := "M1"
    productionDate := "2024-01-01"
    barcodeAC := "2"
    frcl := "1"
    deltaEZ1 := "0"
    barcodeBC := "1" }

/-- Concrete witness input with a single self-joining row of
DeltaEZ1 one. -/
def witRow : RawRow :=
  { finishingMachine := "M2"
    productionDate := "2024-02-02"
    barcodeAC := "B7"
    frcl := "2"
    deltaEZ1 := "1"
    barcodeBC := "B7" }

/-- The single aggregate row produced by witRow. -/
def witGroup : GroupRow :=
  { deltaEZ1 := 1, numberOfTires := 1, averageFRCL := some 2 }

/-- Concrete selected row with a present DeltaEZ1 for the C6 witness. -/
def witSel : SelectedRow :=
  { finishingMachine := "M3"
    productionDate := "2024-03-03"
    barcode := "B9"
    frcl := some 4
    deltaEZ1 := some 2 }

/-- Concrete selected row whose DeltaEZ1 failed to parse, for the C6
witness. -/
def witSelBad : SelectedRow :=
  { finishingMachine := "M3"
    productionDate := "2024-03-03"
    barcode := "B10"
    frcl := none
    deltaEZ1 := none }

/-- Concrete raw row for the C10 witness that joins with itself. -/
def matchedRow : RawRow :=
  { finishingMachine := "M4"
    productionDate := "2024-04-04"
    barcodeAC := "K1"
    frcl := "3"
    deltaEZ1 := "1"
    barcodeBC := "K1" }

/-- Concrete raw row for the C10 witness whose AC barcode matches no BC
barcode and whose BC barcode matches no AC barcode. -/
def unmatchedRow : RawRow :=
  { finishingMachine := "M4"
    productionDate := "2024-04-04"
    barcodeAC := "K2"
    frcl := "3"
    deltaEZ1 := "1"
    barcodeBC := "K3" }

/-! Helper lemmas. -/

theorem mem_mergedData {t : List RawRow} {p : RawRow × RawRow} :
    p ∈ mergedData t ↔ p.1 ∈ t ∧ p.2 ∈ t ∧ p.1.barcodeAC = p.2.barcodeBC := by
  constructor
  · intro hp
    simp only [mergedData, List.mem_flatMap, List.mem_map, List.mem_filter,
      decide_eq_true_eq] at hp
    obtain ⟨a, ha, b, ⟨hb, hbc⟩, hpe⟩ := hp
    subst hpe
    exact ⟨ha, hb, hbc.symm⟩
  · rintro ⟨h1, h2, h3⟩
    simp only [mergedData, List.mem_flatMap, List.mem_map, List.mem_filter,
      decide_eq_true_eq]
    exact ⟨p.1, h1, p.2, ⟨h2, h3.symm⟩, rfl⟩

theorem toList_mk (l : List Char) : (String.mk l).toList = l := rfl

theorem stripCommas_idem (s : String) : stripCommas (stripCommas s) = stripCommas s := by
  simp only [stripCommas, toList_mk]
  congr 1
  refine List.filter_eq_self.mpr ?_
  intro a ha
  exact (List.mem_filter.mp ha).2

set_option maxRecDepth 10000 in
theorem frcl_example : toNumericFRCL "1,234.5" = some (2469 / 2 : ℚ) := by
  with_unfolding_all decide

set_option maxRecDepth 10000 in
theorem witGroup_mem : witGroup ∈ groupedTable [witRow] := by
  with_unfolding_all decide

theorem bins_getD (i : ℕ) (h : i < 13) : deltaez1_bins.getD i 0 = -3 + (i : ℚ) / 2 := by
  unfold deltaez1_bins
  rw [List.getD_eq_getElem?_getD, List.getElem?_map, List.getElem?_range h]
  rfl

theorem binLo_eq (k : ℕ) (h : k < 13) : binLo k = -3 + (k : ℚ) / 2 := by
  unfold binLo
  exact bins_getD k h

theorem binHi_eq (k : ℕ) (h : k < 12) : binHi k = -3 + ((k : ℚ) + 1) / 2 := by
  unfold binHi
  rw [bins_getD (k + 1) (by omega)]
  push_cast
  ring

theorem bucketPred_iff (k : ℕ) (q : ℚ) :
    bucketPred k q = true ↔ binLo k ≤ q ∧ q < binHi k := by
  simp [bucketPred]

theorem bucket_exists {q : ℚ} (h1 : -3 ≤ q) (h2 : q < 3) :
    ∃ k, k < 12 ∧ bucketPred k q = true := by
  have h0 : (0 : ℤ) ≤ ⌊(q + 3) * 2⌋ := Int.floor_nonneg.mpr (by linarith)
  have hle : ((⌊(q + 3) * 2⌋ : ℤ) : ℚ) ≤ (q + 3) * 2 := Int.floor_le _
  have hlt : (q + 3) * 2 < ((⌊(q + 3) * 2⌋ : ℤ) : ℚ) + 1 := Int.lt_floor_add_one _
  have hc : (((⌊(q + 3) * 2⌋).toNat : ℕ) : ℚ) = ((⌊(q + 3) * 2⌋ : ℤ) : ℚ) := by
    exact_mod_cast Int.toNat_of_nonneg h0
  have hj12 : ⌊(q + 3) * 2⌋ < 12 := by
    have h12 : ((⌊(q + 3) * 2⌋ : ℤ) : ℚ) < 12 := by linarith
    exact_mod_cast h12
  have hk12 : (⌊(q + 3) * 2⌋).toNat < 12 := by omega
  refine ⟨(⌊(q + 3) * 2⌋).toNat, hk12, ?_⟩
  rw [bucketPred_iff, binLo_eq _ (by omega), binHi_eq _ hk12]
  constructor
  · rw [hc]; linarith
  · rw [hc]; linarith

theorem bucket_unique {q : ℚ} {j k : ℕ} (hj12 : j < 12) (hk12 : k < 12)
    (hj : bucketPred j q = true) (hk : bucketPred k q = true) : j = k := by
  rw [bucketPred_iff, binLo_eq _ (by omega), binHi_eq _ hj12] at hj
  rw [bucketPred_iff, binLo_eq _ (by omega), binHi_eq _ hk12] at hk
  have h1 : (j : ℚ) < (k : ℚ) + 1 := by linarith [hj.1, hk.2]
  have h2 : (k : ℚ) < (j : ℚ) + 1 := by linarith [hk.1, hj.2]
  have h1n : j < k + 1 := by exact_mod_cast h1
  have h2n : k < j + 1 := by exact_mod_cast h2
  omega

theorem bucketIdxQ_eq_some {q : ℚ} (h1 : -3 ≤ q) (h2 : q < 3) :
    ∃ k, bucketIdxQ q = some k ∧ k < 12 ∧ bucketPred k q = true := by
  obtain ⟨k0, hk0, hp0⟩ := bucket_exists h1 h2
  have hsome : (bucketIdxQ q).isSome := by
    rw [bucketIdxQ, List.find?_isSome]
    exact ⟨k0, List.mem_range.mpr hk0, hp0⟩
  obtain ⟨k, hk⟩ := Option.isSome_iff_exists.mp hsome
  have hk2 := hk
  unfold bucketIdxQ at hk2
  refine ⟨k, hk, ?_, ?_⟩
  · exact List.mem_range.mp (List.mem_of_find?_eq_some hk2)
  · have hp := List.find?_some hk2
    simpa using hp

set_option maxRecDepth 10000 in
theorem bucketIdxQ_three : bucketIdxQ (3 : ℚ) = none := by
  with_unfolding_all decide

theorem not_mem_bucketRows_of_three (rows : List SelectedRow) (r : SelectedRow) (k : ℕ)
    (hr : r.deltaEZ1 = some 3) : r ∉ bucketRows rows k := by
  intro hmem
  have hb := (List.mem_filter.mp hmem).2
  rw [decide_eq_true_eq, hr] at hb
  simp only [bucketIdx] at hb
  rw [bucketIdxQ_three] at hb
  exact Option.noConfusion hb

/-! Claim theorems. -/

set_option maxRecDepth 10000 in
/-- C1: fewer than 2 distinct DeltaEZ1 groups does not always yield a
reported error: with exactly one group (key 0 here) the run completes
without error and the fitted value equals that group's average FRCL
exactly (here 5); only the empty aggregate table errors. -/
theorem C1_one_group_no_error :
    ((groupedTable [oneGroupRow]).map fun g => g.deltaEZ1) = [0] ∧
    pipelinePredictions [oneGroupRow] = some [some 5] ∧
    pipelinePredictions [] = none := by
  with_unfolding_all decide

set_option maxRecDepth 10000 in
/-- C2 counterexample: on a concrete two-row input whose join fan-out
puts the same barcode twice in one bucket, the sum of the per-bucket
distinct-barcode counts (1) differs from the number of filtered records
with DeltaEZ1 strictly below 3 (2). -/
theorem C2_counterexample :
    ¬ ((rangeCountTable [dupRowA, dupRowB]).map fun r => r.numberOfTires).sum =
      countLt3 (filteredData [dupRowA, dupRowB]) := by
  with_unfolding_all decide

/-- C7: for every FRCL input string, the coercion (which strips
thousands-separator commas before parsing) yields the same numeric
value on the string as on the string with its separators removed; in
particular the string 1,234.5 parses to 1234.5. -/
theorem C7_thousands_separators :
    (∀ s : String, toNumericFRCL s = toNumericFRCL (stripCommas s)) ∧
    toNumericFRCL "1,234.5" = some (2469 / 2 : ℚ) := by
  refine ⟨fun s => ?_, frcl_example⟩
  unfold toNumericFRCL
  rw [stripCommas_idem]

/-- C8: the self-join emits one joined record for every ordered pair of
raw rows whose AC-side barcode of the first equals the BC-side barcode
of the second; with repeated barcode values every matching combination
appears. -/
theorem C8_join_fanout (t : List RawRow) (r1 r2 : RawRow) :
    (r1, r2) ∈ mergedData t ↔ r1 ∈ t ∧ r2 ∈ t ∧ r1.barcodeAC = r2.barcodeBC :=
  mem_mergedData

/-- C3: every row of the aggregate table carries a DeltaEZ1 value in the
closed interval from -3 to 3, and that value parsed successfully from
some filtered record; no missing or out-of-range value appears. -/
theorem C3_aggregate_in_range (t : List RawRow) (g : GroupRow)
    (hg : g ∈ groupedTable t) :
    (-3 ≤ g.deltaEZ1 ∧ g.deltaEZ1 ≤ 3) ∧
    ∃ r ∈ filteredData t, r.deltaEZ1 = some g.deltaEZ1 := by
  simp only [groupedTable, groupedOf, List.mem_map] at hg
  obtain ⟨k, hk, rfl⟩ := hg
  unfold groupKeys at hk
  have hk2 : k ∈ ((filteredData t).filterMap fun r => r.deltaEZ1).dedup :=
    (List.mem_insertionSort _).1 hk
  rw [List.mem_dedup] at hk2
  obtain ⟨r, hr, hrk⟩ := List.mem_filterMap.mp hk2
  refine ⟨?_, ⟨r, hr, hrk⟩⟩
  have hr2 := hr
  simp only [filteredData, filterRows, List.mem_filter] at hr2
  have hir : inRange r.deltaEZ1 = true := hr2.2
  rw [hrk] at hir
  simp only [inRange, Bool.and_eq_true, decide_eq_true_eq] at hir
  exact hir

/-- C3 witness: the aggregate row of a concrete one-row input satisfies
the bounds. -/
theorem C3_witness : -3 ≤ witGroup.deltaEZ1 ∧ witGroup.deltaEZ1 ≤ 3 :=
  (C3_aggregate_in_range [witRow] witGroup witGroup_mem).1

/-- C9: the rows of the aggregate table are ordered by strictly
ascending DeltaEZ1 value. -/
theorem C9_aggregate_sorted (t : List RawRow) :
    List.Sorted (· < ·) ((groupedTable t).map fun g => g.deltaEZ1) := by
  have hmap : ((groupedTable t).map fun g => g.deltaEZ1) = groupKeys (filteredData t) := by
    simp only [groupedTable, groupedOf, List.map_map]
    exact List.map_id _
  rw [hmap]
  unfold groupKeys
  have hs := List.sorted_insertionSort (· ≤ ·)
    (((filteredData t).filterMap fun r => r.deltaEZ1).dedup)
  have hn : (List.insertionSort (· ≤ ·)
      (((filteredData t).filterMap fun r => r.deltaEZ1).dedup)).Nodup :=
    ((List.perm_insertionSort (· ≤ ·) _).nodup_iff).mpr (List.nodup_dedup _)
  exact hs.lt_of_le hn

/-- C4: the binning uses exactly 13 boundaries, running from -3 to 3 in
steps of one half (12 buckets); each bucket is left-inclusive and
right-exclusive; every value from -3 inclusive to 3 exclusive is
assigned to exactly one bucket; the value 3 exactly is assigned to no
bucket and a filtered record carrying it is counted in no bucket of the
Range Count table. -/
theorem C4_binning :
    deltaez1_bins.length = 13 ∧
    (∀ i : ℕ, i < 13 → deltaez1_bins.getD i 0 = -3 + (i : ℚ) / 2) ∧
    (∀ (k : ℕ) (q : ℚ), bucketPred k q = true ↔ binLo k ≤ q ∧ q < binHi k) ∧
    (∀ q : ℚ, -3 ≤ q → q < 3 →
      ∃ k, bucketIdxQ q = some k ∧ k < 12 ∧ bucketPred k q = true ∧
        ∀ j, j < 12 → bucketPred j q = true → j = k) ∧
    bucketIdxQ (3 : ℚ) = none ∧
    (∀ (rows : List SelectedRow) (r : SelectedRow) (k : ℕ),
      r.deltaEZ1 = some (3 : ℚ) → r ∉ bucketRows rows k) := by
  refine ⟨?_, bins_getD, bucketPred_iff, ?_, bucketIdxQ_three,
    fun rows r k hr => not_mem_bucketRows_of_three rows r k hr⟩
  · unfold deltaez1_bins
    simp
  · intro q h1 h2
    obtain ⟨k, hfind, hk12, hkp⟩ := bucketIdxQ_eq_some h1 h2
    exact ⟨k, hfind, hk12, hkp, fun j hj12 hjp => bucket_unique hj12 hk12 hjp hkp⟩

/-- C4 witness: the concrete value 0 is assigned to a bucket. -/
theorem C4_witness : (bucketIdxQ (0 : ℚ)).isSome = true := by
  obtain ⟨k, hk, _⟩ := C4_binning.2.2.2.1 0 (by norm_num) (by norm_num)
  rw [hk]
  rfl

/-- C5: the Range Count table always carries one row per each of the 12
buckets, with that bucket's boundaries, and a bucket matched by no
filtered record still appears, with a count of zero. -/
theorem C5_all_buckets_present (t : List RawRow) :
    (rangeCountTable t).length = 12 ∧
    ∀ k : ℕ, k < 12 →
      ((rangeCountTable t).getD k ⟨0, 0, 0⟩).lo = binLo k ∧
      ((rangeCountTable t).getD k ⟨0, 0, 0⟩).hi = binHi k ∧
      ((∀ r ∈ filteredData t, ¬ bucketIdx r.deltaEZ1 = some k) →
        ((rangeCountTable t).getD k ⟨0, 0, 0⟩).numberOfTires = 0) := by
  have hrow : ∀ k : ℕ, k < 12 → (rangeCountTable t).getD k ⟨0, 0, 0⟩ =
      { lo := binLo k
        hi := binHi k
        numberOfTires :=
          nunique ((bucketRows (filteredData t) k).map fun r => r.barcode) } := by
    intro k hk
    unfold rangeCountTable rangeCountOf
    rw [List.getD_eq_getElem?_getD, List.getElem?_map, List.getElem?_range hk]
    rfl
  refine ⟨?_, fun k hk => ?_⟩
  · unfold rangeCountTable rangeCountOf
    simp
  · rw [hrow k hk]
    refine ⟨rfl, rfl, fun hempty => ?_⟩
    have hnil : bucketRows (filteredData t) k = [] := by
      unfold bucketRows
      rw [List.filter_eq_nil_iff]
      intro a ha
      simp only [decide_eq_true_eq]
      exact hempty a ha
    rw [hnil]
    rfl

set_option maxRecDepth 10000 in
theorem wit_bucket0_empty :
    ∀ r ∈ filteredData [witRow], ¬ bucketIdx r.deltaEZ1 = some 0 := by
  with_unfolding_all decide

/-- C5 witness: on a concrete input whose only record falls in bucket
10, bucket 0 appears with a zero count. -/
theorem C5_witness :
    ((rangeCountTable [witRow]).getD 0 ⟨0, 0, 0⟩).numberOfTires = 0 :=
  ((C5_all_buckets_present [witRow]).2 0 (by norm_num)).2.2 wit_bucket0_empty

theorem sum_map_add_aux (l : List ℕ) (f g : ℕ → ℕ) :
    (l.map fun k => f k + g k).sum = (l.map f).sum + (l.map g).sum := by
  induction l with
  | nil => rfl
  | cons a l ih =>
    simp only [List.map_cons, List.sum_cons, ih]
    omega

theorem indicator_sum_range {j n : ℕ} (h : j < n) :
    ((List.range n).map fun k => if j = k then (1 : ℕ) else 0).sum = 1 := by
  induction n with
  | zero => omega
  | succ n ih =>
    rw [List.range_succ, List.map_append, List.sum_append]
    by_cases hj : j = n
    · subst hj
      have hzero : ((List.range j).map fun k => if j = k then (1 : ℕ) else 0).sum = 0 := by
        refine List.sum_eq_zero ?_
        intro x hx
        obtain ⟨k, hk, rfl⟩ := List.mem_map.mp hx
        rw [List.mem_range] at hk
        rw [if_neg (by omega)]
      rw [hzero]
      simp
    · rw [ih (by omega)]
      simp [hj]

theorem indicator_of_inRange (o : Option ℚ) (h : inRange o = true) :
    ((List.range 12).map fun j => if bucketIdx o = some j then (1 : ℕ) else 0).sum =
    if deLt3 o = true then 1 else 0 := by
  match o with
  | none => simp [inRange] at h
  | some q =>
    simp only [inRange, Bool.and_eq_true, decide_eq_true_eq] at h
    by_cases h3 : q < 3
    · have hd : deLt3 (some q) = true := by simp [deLt3, h3]
      rw [hd, if_pos rfl]
      simp only [bucketIdx]
      obtain ⟨k, hk, hk12, _⟩ := bucketIdxQ_eq_some h.1 h3
      simp only [hk, Option.some.injEq]
      exact indicator_sum_range hk12
    · have hq3 : q = 3 := le_antisymm h.2 (not_lt.mp h3)
      subst hq3
      have hd : deLt3 (some 3) = false := by simp [deLt3]
      rw [hd, if_neg (by simp)]
      simp only [bucketIdx]
      simp only [bucketIdxQ_three]
      simp

theorem sum_countP_buckets (rows : List SelectedRow)
    (h : ∀ r ∈ rows, inRange r.deltaEZ1 = true) :
    ((List.range 12).map fun k =>
      rows.countP fun r => decide (bucketIdx r.deltaEZ1 = some k)).sum =
    rows.countP fun r => deLt3 r.deltaEZ1 := by
  induction rows with
  | nil => simp
  | cons r rows ih =>
    have hr := h r (List.mem_cons_self r rows)
    have hrest := ih fun x hx => h x (List.mem_cons_of_mem r hx)
    simp only [List.countP_cons, decide_eq_true_eq]
    rw [sum_map_add_aux (List.range 12)
      (fun k => rows.countP fun x => decide (bucketIdx x.deltaEZ1 = some k))
      (fun k => if bucketIdx r.deltaEZ1 = some k then 1 else 0)]
    rw [hrest, indicator_of_inRange r.deltaEZ1 hr]

/-- C2 (amended): when no two filtered records falling in the same
bucket share a barcode, the sum of the per-bucket tire counts over the
12 buckets of the Range Count table equals the number of filtered
records whose DeltaEZ1 is strictly below 3. -/
theorem C2_bucket_sum (t : List RawRow)
    (h : ∀ k : ℕ, k < 12 →
      ((bucketRows (filteredData t) k).map fun r => r.barcode).Nodup) :
    ((rangeCountTable t).map fun r => r.numberOfTires).sum =
    countLt3 (filteredData t) := by
  have hmem : ∀ r ∈ filteredData t, inRange r.deltaEZ1 = true := fun r hr =>
    (List.mem_filter.mp hr).2
  unfold rangeCountTable rangeCountOf countLt3
  rw [List.map_map]
  rw [← List.countP_eq_length_filter]
  rw [← sum_countP_buckets (filteredData t) hmem]
  refine congrArg List.sum ?_
  refine List.map_congr_left ?_
  intro k hk
  have hnd := h k (List.mem_range.mp hk)
  show nunique ((bucketRows (filteredData t) k).map fun r => r.barcode) =
    (filteredData t).countP fun r => decide (bucketIdx r.deltaEZ1 = some k)
  unfold nunique
  rw [List.dedup_eq_self.mpr hnd, List.length_map]
  unfold bucketRows
  rw [← List.countP_eq_length_filter]

set_option maxRecDepth 10000 in
theorem wit_nodup_buckets :
    ∀ k : ℕ, k < 12 →
      ((bucketRows (filteredData [witRow]) k).map fun r => r.barcode).Nodup := by
  with_unfolding_all decide

/-- C2 witness: on a concrete input whose buckets hold distinct
barcodes, the bucket-count sum equals the below-3 filtered-record
count. -/
theorem C2_bucket_sum_witness :
    ((rangeCountTable [witRow]).map fun r => r.numberOfTires).sum =
    countLt3 (filteredData [witRow]) :=
  C2_bucket_sum [witRow] wit_nodup_buckets

/-- C6: the numeric coercion is a total function (it raises on no
string: every string maps to the missing marker or to a value); a
selected row whose DeltaEZ1 failed to parse is excluded from the
filtered table, hence from the aggregate and bucket tables; and a row
whose FRCL failed to parse contributes nothing to its group's mean. -/
theorem C6_missing_excluded :
    (∀ s : String, toNumericFRCL s = none ∨ ∃ q, toNumericFRCL s = some q) ∧
    (∀ (rows : List SelectedRow) (r : SelectedRow), r.deltaEZ1 = none →
      filterRows (rows ++ [r]) = filterRows rows ∧
      groupedOf (filterRows (rows ++ [r])) = groupedOf (filterRows rows) ∧
      rangeCountOf (filterRows (rows ++ [r])) = rangeCountOf (filterRows rows)) ∧
    (∀ (rows : List SelectedRow) (r : SelectedRow) (q : ℚ),
      r.frcl = none → r.deltaEZ1 = some q →
      ∀ g ∈ groupedOf (filterRows (rows ++ [r])), g.deltaEZ1 = q →
        g.averageFRCL = meanOpt ((groupRows (filterRows rows) q).filterMap fun x => x.frcl)) := by
  refine ⟨?_, ?_, ?_⟩
  · intro s
    cases hv : toNumericFRCL s with
    | none => exact Or.inl rfl
    | some q => exact Or.inr ⟨q, rfl⟩
  · intro rows r hr
    have hfe : filterRows (rows ++ [r]) = filterRows rows := by
      unfold filterRows
      rw [List.filter_append]
      have hnil : List.filter (fun x => inRange x.deltaEZ1) [r] = [] := by
        simp [List.filter_cons, hr, inRange]
      rw [hnil, List.append_nil]
    exact ⟨hfe, by rw [hfe], by rw [hfe]⟩
  · intro rows r q hf hd g hg hgq
    by_cases hin : inRange (some q) = true
    · have hfe : filterRows (rows ++ [r]) = filterRows rows ++ [r] := by
        unfold filterRows
        rw [List.filter_append]
        have hone : List.filter (fun x => inRange x.deltaEZ1) [r] = [r] := by
          simp [List.filter_cons, hd, hin]
        rw [hone]
      simp only [groupedOf, List.mem_map] at hg
      obtain ⟨k, hk, rfl⟩ := hg
      have hkq : k = q := hgq
      subst hkq
      show meanOpt ((groupRows (filterRows (rows ++ [r])) k).filterMap fun x => x.frcl) =
        meanOpt ((groupRows (filterRows rows) k).filterMap fun x => x.frcl)
      rw [hfe]
      unfold groupRows
      rw [List.filter_append]
      have hone : List.filter (fun x => decide (x.deltaEZ1 = some k)) [r] = [r] := by
        simp [List.filter_cons, hd]
      rw [hone, List.filterMap_append]
      have hnone : List.filterMap (fun x => x.frcl) [r] = [] := by
        simp [List.filterMap_cons, hf]
      rw [hnone, List.append_nil]
    · have hfe : filterRows (rows ++ [r]) = filterRows rows := by
        unfold filterRows
        rw [List.filter_append]
        have hnil : List.filter (fun x => inRange x.deltaEZ1) [r] = [] := by
          have hpred : inRange r.deltaEZ1 = false := by
            rw [hd]
            exact Bool.eq_false_iff.mpr hin
          simp [List.filter_cons, hpred]
        rw [hnil, List.append_nil]
      simp only [groupedOf, List.mem_map] at hg
      obtain ⟨k, hk, rfl⟩ := hg
      have hkq : k = q := hgq
      subst hkq
      show meanOpt ((groupRows (filterRows (rows ++ [r])) k).filterMap fun x => x.frcl) =
        meanOpt ((groupRows (filterRows rows) k).filterMap fun x => x.frcl)
      rw [hfe]

/-- C6 witness: appending a concrete row with unparseable fields leaves
the filtered table unchanged. -/
theorem C6_witness : filterRows ([witSel] ++ [witSelBad]) = filterRows [witSel] :=
  (C6_missing_excluded.2.1 [witSel] witSelBad rfl).1

theorem filter_erase_of_neg {α : Type} [DecidableEq α] (p : α → Bool) (a : α)
    (l : List α) (h : p a = false) : (l.erase a).filter p = l.filter p := by
  induction l with
  | nil => rfl
  | cons b l ih =>
    by_cases hb : b = a
    · subst hb
      simp [List.erase_cons, List.filter_cons, h]
    · simp [List.erase_cons, hb, List.filter_cons, ih]

theorem flatMap_erase_of_eq_nil {α β : Type} [DecidableEq α] (f : α → List β) (a : α)
    (l : List α) (h : f a = []) : (l.erase a).flatMap f = l.flatMap f := by
  induction l with
  | nil => rfl
  | cons b l ih =>
    by_cases hb : b = a
    · subst hb
      simp [List.erase_cons, List.flatMap_cons, h]
    · simp [List.erase_cons, hb, List.flatMap_cons, ih]

/-- C10: the self-join is an inner join: a raw record whose AC barcode
matches no record's BC barcode never occurs as the left component of a
joined pair, a record whose BC barcode matches no AC barcode never
occurs as the right component, and a record unmatched on both sides can
be erased from the input without changing the joined, selected,
filtered, aggregate or bucket tables: it is silently dropped. -/
theorem C10_unmatched_dropped (t : List RawRow) (r : RawRow) :
    ((∀ x ∈ t, x.barcodeBC ≠ r.barcodeAC) → ∀ p ∈ mergedData t, p.1 ≠ r) ∧
    ((∀ x ∈ t, x.barcodeAC ≠ r.barcodeBC) → ∀ p ∈ mergedData t, p.2 ≠ r) ∧
    ((∀ x ∈ t, x.barcodeBC ≠ r.barcodeAC) → (∀ x ∈ t, x.barcodeAC ≠ r.barcodeBC) →
      mergedData (t.erase r) = mergedData t ∧
      selectedData (t.erase r) = selectedData t ∧
      filteredData (t.erase r) = filteredData t ∧
      groupedTable (t.erase r) = groupedTable t ∧
      rangeCountTable (t.erase r) = rangeCountTable t) := by
  refine ⟨?_, ?_, ?_⟩
  · intro h p hp hpr
    obtain ⟨h1, h2, h3⟩ := mem_mergedData.mp hp
    rw [hpr] at h3
    exact h p.2 h2 h3.symm
  · intro h p hp hpr
    obtain ⟨h1, h2, h3⟩ := mem_mergedData.mp hp
    rw [hpr] at h3
    exact h p.1 h1 h3
  · intro hAC hBC
    have hmerge : mergedData (t.erase r) = mergedData t := by
      unfold mergedData
      have hstep1 : ((t.erase r).flatMap fun r1 =>
          ((t.erase r).filter fun r2 => decide (r2.barcodeBC = r1.barcodeAC)).map
            fun r2 => (r1, r2)) =
          ((t.erase r).flatMap fun r1 =>
          (t.filter fun r2 => decide (r2.barcodeBC = r1.barcodeAC)).map
            fun r2 => (r1, r2)) := by
        refine List.flatMap_congr ?_
        intro x hx
        congr 1
        refine filter_erase_of_neg _ _ _ ?_
        have hx2 : x ∈ t := List.erase_subset r t hx
        exact decide_eq_false fun hc => hBC x hx2 hc.symm
      have hstep2 : ((t.erase r).flatMap fun r1 =>
          (t.filter fun r2 => decide (r2.barcodeBC = r1.barcodeAC)).map
            fun r2 => (r1, r2)) =
          (t.flatMap fun r1 =>
          (t.filter fun r2 => decide (r2.barcodeBC = r1.barcodeAC)).map
            fun r2 => (r1, r2)) := by
        refine flatMap_erase_of_eq_nil _ _ _ ?_
        have hfil : (t.filter fun r2 => decide (r2.barcodeBC = r.barcodeAC)) = [] := by
          rw [List.filter_eq_nil_iff]
          intro x hx
          simp only [decide_eq_true_eq]
          exact hAC x hx
        rw [hfil]
        rfl
      exact hstep1.trans hstep2
    refine ⟨hmerge, ?_, ?_, ?_, ?_⟩
    · unfold selectedData
      rw [hmerge]
    · unfold filteredData selectedData
      rw [hmerge]
    · unfold groupedTable filteredData selectedData
      rw [hmerge]
    · unfold rangeCountTable filteredData selectedData
      rw [hmerge]

/-- C10 witness: on a concrete two-row input the row unmatched on both
sides can be erased without changing the joined or aggregate tables. -/
theorem C10_witness :
    mergedData ([matchedRow, unmatchedRow].erase unmatchedRow) =
      mergedData [matchedRow, unmatchedRow] ∧
    groupedTable ([matchedRow, unmatchedRow].erase unmatchedRow) =
      groupedTable [matchedRow, unmatchedRow] := by
  have h := (C10_unmatched_dropped [matchedRow, unmatchedRow] unmatchedRow).2.2
    (by decide) (by decide)
  exact ⟨h.1, h.2.2.2.1⟩

end FRCL
